import Mathlib

/-!
Shallow embedding of the PatientMovementAnalysisAPI keypoint-preprocessing
pipeline (`src/json_file_keypoint_extraction.py` and `src/main.py`) and proofs
about its behaviour.

Python lists are embedded as Lean `List`s; Python integers as `Nat`; JSON
numbers as `ℚ`; the real arithmetic of numpy as `ℝ`, with the single
floating-point phenomenon the code relies on — division by zero producing a
non-finite value — modelled by an explicit `EFloat` result type.  Fallible
Python code (raised exceptions) is embedded as `Except PyError`.
-/

/-- The exceptions the handler and the pipeline can raise, mirroring
`fastapi.HTTPException`, Python's `ZeroDivisionError` (from `//` with a zero
divisor), `TypeError` (from `list.extend` of a non-iterable or `np.array` of
non-numeric data) and numpy's `ValueError` (from a failing `reshape`). -/
inductive PyError where
  | httpException (status : Nat) (detail : String)
  | zeroDivisionError
  | typeError (msg : String)
  | valueError (msg : String)
deriving DecidableEq

/-- `str(e)` for the exceptions above, as Python renders them. -/
def pyStr : PyError → String
  | .httpException status detail => toString status ++ ": " ++ detail
  | .zeroDivisionError => "integer division or modulo by zero"
  | .typeError msg => msg
  | .valueError msg => msg

/-- Embedding of the Python comprehension
`[value for i, value in enumerate(l) if p(i)]`, with `i` the running index. -/
def pyFilterIdxAux (p : Nat → Bool) (i : Nat) : List α → List α
  | [] => []
  | x :: t => if p i then x :: pyFilterIdxAux p (i + 1) t else pyFilterIdxAux p (i + 1) t

/-- The comprehension starting at index 0. -/
def pyFilterIdx (p : Nat → Bool) (l : List α) : List α :=
  pyFilterIdxAux p 0 l

/-- `KeypointProcessor.skip_confidence_values`
(`src/json_file_keypoint_extraction.py`, line 42):
`[value for index, value in enumerate(keypoints) if (index % 3) != 2]`. -/
def skip_confidence_values (keypoints : List α) : List α :=
  pyFilterIdx (fun index => index % 3 != 2) keypoints

/-- The inline confidence-stripping comprehension of the `/predict` handler
(`src/main.py`, line 48):
`[value for i, value in enumerate(keypoints_list) if (i + 1) % 3 != 0]`. -/
def mainStripConfidence (keypoints_list : List α) : List α :=
  pyFilterIdx (fun i => (i + 1) % 3 != 0) keypoints_list

/-- Embedding of Python list repetition `l * n`. -/
def pyListMul (l : List α) : Nat → List α
  | 0 => []
  | n + 1 => l ++ pyListMul l n

/-- `KeypointProcessor.extend_keypoints`
(`src/json_file_keypoint_extraction.py`, lines 58-66).  The Python code
computes `(max_seq_length + num_frames - 1) // num_frames` unconditionally in
the short branch; when `num_frames == 0` that `//` raises `ZeroDivisionError`,
embedded here as the `.error` case. -/
def extend_keypoints (max_seq_length : Nat) (keypoints : List α) :
    Except PyError (List α) :=
  if keypoints.length / 272 < max_seq_length then
    if keypoints.length / 272 = 0 then
      .error .zeroDivisionError
    else
      .ok ((pyListMul keypoints
        ((max_seq_length + keypoints.length / 272 - 1) / (keypoints.length / 272))).take
        (max_seq_length * 272))
  else
    .ok (keypoints.take (max_seq_length * 272))

/-- Value produced by a numpy floating-point division.  Finite arithmetic is
modelled exactly over `ℝ`; the one floating-point phenomenon the code relies
on — dividing by an exactly-zero standard deviation yields a non-finite value
(NaN/Inf) — is modelled by the explicit `nonfinite` constructor. -/
inductive EFloat where
  | fin (x : ℝ)
  | nonfinite

/-- numpy elementwise division: by zero it produces a non-finite value,
otherwise the exact quotient. -/
noncomputable def fdiv (a b : ℝ) : EFloat :=
  if b = 0 then .nonfinite else .fin (a / b)

/-- Negation on `EFloat` (non-finite values stay non-finite). -/
def negE : EFloat → EFloat
  | .fin x => .fin (-x)
  | .nonfinite => .nonfinite

/-- `np.mean(keypoints_array, axis=0)` at column `j`, where the flat list is
read as `N` rows of width 272 (row `i`, column `j` sits at flat index
`i * 272 + j`). -/
noncomputable def colMean (l : List ℝ) (N j : Nat) : ℝ :=
  (∑ i ∈ Finset.range N, l.getD (i * 272 + j) 0) / N

/-- The population variance (divisor `N`, not `N - 1`) of column `j`, the
square of what `np.std(keypoints_array, axis=0)` computes. -/
noncomputable def colVar (l : List ℝ) (N j : Nat) : ℝ :=
  (∑ i ∈ Finset.range N, (l.getD (i * 272 + j) 0 - colMean l N j) ^ 2) / N

/-- `np.std(keypoints_array, axis=0)` at column `j`: the population standard
deviation across the `N` rows. -/
noncomputable def colStd (l : List ℝ) (N j : Nat) : ℝ :=
  Real.sqrt (colVar l N j)

/-- `KeypointProcessor.standardize_keypoints`
(`src/json_file_keypoint_extraction.py`, lines 79-83):
`np.array(keypoints).reshape(-1, 272)`, per-column mean and (population)
standard deviation across the rows, then `(keypoints_array - mean) / std`,
flattened back in row-major order.  The number of rows is `len / 272`
(`reshape(-1, 272)`; the pipeline only ever passes exact multiples of 272). -/
noncomputable def standardize_keypoints (keypoints : List ℝ) : List EFloat :=
  (List.range keypoints.length).map fun idx =>
    fdiv (keypoints.getD idx 0 - colMean keypoints (keypoints.length / 272) (idx % 272))
         (colStd keypoints (keypoints.length / 272) (idx % 272))

/-- Applies the affine transform `x ↦ k * x + c` to every value of column `j`
(flat indices congruent to `j` mod 272) and leaves the other columns
unchanged. -/
noncomputable def applyAffineToCol (k c : ℝ) (j : Nat) (l : List ℝ) : List ℝ :=
  (List.range l.length).map fun idx =>
    if idx % 272 = j then k * l.getD idx 0 + c else l.getD idx 0

/-- The element dtype a TensorFlow tensor carries; `build_tensors` always
requests `tf.float32`. -/
inductive DType where
  | float32
  | float64
deriving DecidableEq

/-- A 3-dimensional tensor: nested row-major data plus its element dtype. -/
structure Tensor3 (α : Type u) where
  data : List (List (List α))
  dtype : DType

/-- Row-major reshape of a flat list into `rows` rows of `cols` columns. -/
def reshapeRows (rows cols : Nat) (l : List α) : List (List α) :=
  (List.range rows).map fun i => (l.drop (i * cols)).take cols

/-- `KeypointProcessor.build_tensors`
(`src/json_file_keypoint_extraction.py`, lines 96-97):
`np.array(keypoints).reshape(1, self.max_seq_length, 272)` followed by
`tf.convert_to_tensor(keypoints_array, dtype=tf.float32)`.  numpy's `reshape`
raises `ValueError` unless the list's length is exactly the requested total
size `1 * max_seq_length * 272`. -/
def build_tensors (max_seq_length : Nat) (keypoints : List α) :
    Except PyError (Tensor3 α) :=
  if keypoints.length = 1 * max_seq_length * 272 then
    .ok { data := [reshapeRows max_seq_length 272 keypoints], dtype := .float32 }
  else
    .error (.valueError "cannot reshape array")

/-- Parsed JSON values, as produced by `json.loads` (numbers as `ℚ`).
Note `json.loads` keeps the last of duplicate object keys while `List.lookup`
takes the first; the handler's behaviour is only modelled for objects with
distinct keys, which is all the claims exercise. -/
inductive Json where
  | null
  | bool (b : Bool)
  | num (q : ℚ)
  | str (s : String)
  | arr (elements : List Json)
  | obj (fields : List (String × Json))

/-- The frame-collection loop of `/predict` (`src/main.py`, lines 35-40):
for each frame, if it is a dict containing a `"keypoints"` key, extend the
accumulator with that value's elements, otherwise raise
`HTTPException(400, "Invalid frame format in JSON data")`.  A `"keypoints"`
value that is not a list makes Python's `list.extend` raise `TypeError`
(string/dict iterables are not modelled; no claim exercises them). -/
def collectFrames : List Json → Except PyError (List Json)
  | [] => .ok []
  | frame :: rest =>
    match frame with
    | .obj fields =>
      match fields.lookup "keypoints" with
      | some (.arr xs) =>
        match collectFrames rest with
        | .ok tail => .ok (xs ++ tail)
        | .error e => .error e
      | some _ => .error (.typeError "object is not iterable")
      | none => .error (.httpException 400 "Invalid frame format in JSON data")
    | _ => .error (.httpException 400 "Invalid frame format in JSON data")

/-- Conversion of the collected keypoint values to numbers, which Python
performs implicitly at `np.array(...)`: non-numeric entries make numpy raise
`TypeError` when arithmetic is attempted on the resulting array. -/
def toFloats : List Json → Except PyError (List ℚ)
  | [] => .ok []
  | .num q :: rest =>
    match toFloats rest with
    | .ok tail => .ok (q :: tail)
    | .error e => .error e
  | _ :: _ => .error (.typeError "unsupported operand type in numeric array")

/-- An HTTP response as the caller observes it: status code and detail. -/
structure HttpResponse where
  status : Nat
  detail : String
deriving DecidableEq

/-- The `/predict` handler (`src/main.py`, lines 24-60) after JSON parsing:
structural validation (lines 34-45), inline confidence stripping (line 48),
then the three pipeline stages (lines 51-53).  The surrounding
`try/except Exception` (lines 59-60) catches EVERY exception raised in the
body — including the `HTTPException(status_code=400, ...)` ones, since
`HTTPException` subclasses `Exception` — and re-raises it as
`HTTPException(status_code=500, detail=str(e))`.  The model-inference call
(line 55) is an external collaborator; a request that reaches it successfully
is modelled as a 200 response. -/
noncomputable def predict (json_data : Json) : HttpResponse :=
  let result : Except PyError (Tensor3 EFloat) := do
    let frames ← (match json_data with
      | Json.arr frames => Except.ok frames
      | _ => Except.error (PyError.httpException 400 "JSON data should be a list of frames"))
    let keypoints_list ← collectFrames frames
    if keypoints_list.isEmpty then
      Except.error (PyError.httpException 400 "No keypoints found in JSON data")
    else do
      let stripped := mainStripConfidence keypoints_list
      let extended ← extend_keypoints 370 stripped
      let nums ← toFloats extended
      let standardized := standardize_keypoints (nums.map fun q => (q : ℝ))
      build_tensors 370 standardized
  match result with
  | .ok _tensor => { status := 200, detail := "" }
  | .error e => { status := 500, detail := pyStr e }

section FilterIdxLemmas

variable {α : Type u}

theorem pyFilterIdxAux_shift3 (p : Nat → Bool) (hp : ∀ i, p (i + 3) = p i) :
    ∀ (l : List α) (i : Nat), pyFilterIdxAux p (i + 3) l = pyFilterIdxAux p i l := by
  intro l
  induction l with
  | nil => intro i; rfl
  | cons x t ih =>
    intro i
    simp only [pyFilterIdxAux, hp i]
    have h3 : i + 1 + 3 = i + 3 + 1 := by omega
    rw [← h3, ih (i + 1)]

theorem skip_confidence_values_nil : skip_confidence_values ([] : List α) = [] := rfl

theorem skip_confidence_values_one (a : α) : skip_confidence_values [a] = [a] := rfl

theorem skip_confidence_values_two (a b : α) :
    skip_confidence_values [a, b] = [a, b] := rfl

theorem skip_confidence_values_cons3 (a b c : α) (t : List α) :
    skip_confidence_values (a :: b :: c :: t) = a :: b :: skip_confidence_values t := by
  unfold skip_confidence_values pyFilterIdx
  simp only [pyFilterIdxAux]
  norm_num
  exact pyFilterIdxAux_shift3 _ (fun i => by simp [Nat.add_mod_right]) t 0

theorem getD_cons3 (a b c : α) (t : List α) (n : Nat) (d : α) :
    (a :: b :: c :: t).getD (n + 3) d = t.getD n d := by
  show (a :: b :: c :: t).getD (n + 1 + 1 + 1) d = t.getD n d
  simp [List.getD_cons_succ]

theorem skip_confidence_values_length_aux :
    ∀ (N : Nat) (l : List α), l.length ≤ N →
      (skip_confidence_values l).length = l.length - l.length / 3 := by
  intro N
  induction N with
  | zero =>
    intro l hl
    have h0 : l = [] := List.eq_nil_of_length_eq_zero (Nat.le_zero.mp hl)
    subst h0
    simp [skip_confidence_values_nil]
  | succ N ih =>
    intro l hl
    match l with
    | [] => simp [skip_confidence_values_nil]
    | [a] => simp [skip_confidence_values_one]
    | [a, b] => simp [skip_confidence_values_two]
    | a :: b :: c :: t =>
      rw [skip_confidence_values_cons3]
      have ht : t.length ≤ N := by
        simp only [List.length_cons] at hl
        omega
      have hrec := ih t ht
      simp only [List.length_cons, hrec]
      omega

/-- General length law of `skip_confidence_values`: it removes exactly the
`⌊len/3⌋` positions congruent to 2 mod 3, for inputs of any length. -/
theorem skip_confidence_values_length (l : List α) :
    (skip_confidence_values l).length = l.length - l.length / 3 :=
  skip_confidence_values_length_aux l.length l (Nat.le_refl _)

theorem skip_confidence_values_getD_aux :
    ∀ (N : Nat) (l : List α) (d : α) (j : Nat), l.length ≤ N →
      j < (skip_confidence_values l).length →
      (skip_confidence_values l).getD j d = l.getD (3 * (j / 2) + j % 2) d := by
  intro N
  induction N with
  | zero =>
    intro l d j hl hj
    have h0 : l = [] := List.eq_nil_of_length_eq_zero (Nat.le_zero.mp hl)
    subst h0
    simp [skip_confidence_values_nil] at hj
  | succ N ih =>
    intro l d j hl hj
    match l with
    | [] => simp [skip_confidence_values_nil] at hj
    | [a] =>
      rw [skip_confidence_values_one] at hj ⊢
      simp only [List.length_singleton] at hj
      have hj0 : j = 0 := by omega
      subst hj0
      rfl
    | [a, b] =>
      rw [skip_confidence_values_two] at hj ⊢
      simp only [List.length_cons, List.length_singleton] at hj
      match j, hj with
      | 0, _ => rfl
      | 1, _ => rfl
    | a :: b :: c :: t =>
      rw [skip_confidence_values_cons3] at hj ⊢
      have ht : t.length ≤ N := by
        simp only [List.length_cons] at hl
        omega
      match j with
      | 0 => rfl
      | 1 => rfl
      | m + 2 =>
        simp only [List.length_cons] at hj
        have hm : m < (skip_confidence_values t).length := by omega
        have hrec := ih t d m ht hm
        have hstep : (a :: b :: skip_confidence_values t).getD (m + 2) d =
            (skip_confidence_values t).getD m d := by
          show (a :: b :: skip_confidence_values t).getD (m + 1 + 1) d = _
          simp [List.getD_cons_succ]
        have hidx : 3 * ((m + 2) / 2) + (m + 2) % 2 = 3 * (m / 2) + m % 2 + 3 := by
          omega
        rw [hstep, hrec, hidx, getD_cons3]

/-- General positional law of `skip_confidence_values`: output position `j`
holds the input value at position `3⌊j/2⌋ + (j mod 2)`. -/
theorem skip_confidence_values_getD (l : List α) (d : α) (j : Nat)
    (hj : j < (skip_confidence_values l).length) :
    (skip_confidence_values l).getD j d = l.getD (3 * (j / 2) + j % 2) d :=
  skip_confidence_values_getD_aux l.length l d j (Nat.le_refl _) hj

theorem pyFilterIdxAux_congr (p q : Nat → Bool) (hpq : ∀ i, p i = q i) :
    ∀ (l : List α) (i : Nat), pyFilterIdxAux p i l = pyFilterIdxAux q i l := by
  intro l
  induction l with
  | nil => intro i; rfl
  | cons x t ih =>
    intro i
    simp only [pyFilterIdxAux, hpq i, ih]

theorem stripPredicates_agree (i : Nat) : ((i + 1) % 3 != 0) = (i % 3 != 2) := by
  have h1 : (i + 1) % 3 = (i % 3 + 1 % 3) % 3 := Nat.add_mod i 1 3
  have h2 : i % 3 = 0 ∨ i % 3 = 1 ∨ i % 3 = 2 := by omega
  rcases h2 with h | h | h <;> rw [h1, h] <;> rfl

end FilterIdxLemmas

/-- Claim C6: for an input of length `3n`, confidence stripping returns exactly
`2n` values; output position `j` holds the input value from position
`3⌊j/2⌋ + (j mod 2)`, which is strictly increasing in `j` and never congruent
to 2 mod 3 (so order is preserved and no dropped value appears); and inputs of
any other length are handled by the same positional rule, totally, without
error. -/
theorem skip_confidence_values_C6 {α : Type u} :
    (∀ (l : List α) (n : Nat) (d : α), l.length = 3 * n →
      (skip_confidence_values l).length = 2 * n ∧
      (∀ j, j < 2 * n →
        (skip_confidence_values l).getD j d = l.getD (3 * (j / 2) + j % 2) d ∧
        (3 * (j / 2) + j % 2) % 3 ≠ 2) ∧
      (∀ j1 j2, j1 < j2 → j2 < 2 * n →
        3 * (j1 / 2) + j1 % 2 < 3 * (j2 / 2) + j2 % 2)) ∧
    (∀ (l : List α) (d : α) (j : Nat), j < (skip_confidence_values l).length →
      (skip_confidence_values l).getD j d = l.getD (3 * (j / 2) + j % 2) d) := by
  constructor
  · intro l n d hlen
    have hskip : (skip_confidence_values l).length = 2 * n := by
      rw [skip_confidence_values_length, hlen]
      omega
    refine ⟨hskip, fun j hj => ⟨?_, ?_⟩, fun j1 j2 h12 h2 => ?_⟩
    · exact skip_confidence_values_getD l d j (by omega)
    · omega
    · omega
  · exact fun l d j hj => skip_confidence_values_getD l d j hj

/-- Witness for C6 at a concrete input of length 6 = 3·2: the stripped list is
`[10, 20, 40, 50]`, of length 4 = 2·2, and e.g. position 2 holds the input
value at position 3. -/
theorem skip_confidence_values_C6_witness :
    ([10, 20, 30, 40, 50, 60] : List Nat).length = 3 * 2 ∧
    (skip_confidence_values ([10, 20, 30, 40, 50, 60] : List Nat)).length = 2 * 2 ∧
    (skip_confidence_values ([10, 20, 30, 40, 50, 60] : List Nat)).getD 2 0 =
      ([10, 20, 30, 40, 50, 60] : List Nat).getD (3 * (2 / 2) + 2 % 2) 0 ∧
    (3 * (2 / 2) + 2 % 2) % 3 ≠ 2 ∧
    3 * (1 / 2) + 1 % 2 < 3 * (2 / 2) + 2 % 2 := by
  have h := (skip_confidence_values_C6 (α := Nat)).1 [10, 20, 30, 40, 50, 60] 2 0 (by decide)
  exact ⟨by decide, h.1, (h.2.1 2 (by decide)).1, (h.2.1 2 (by decide)).2,
    h.2.2 1 2 (by decide) (by decide)⟩

section ExtendLemmas

variable {α : Type u}

theorem pyListMul_length (l : List α) : ∀ n, (pyListMul l n).length = n * l.length := by
  intro n
  induction n with
  | zero => simp [pyListMul]
  | succ n ih =>
    simp only [pyListMul, List.length_append, ih]
    ring

theorem getD_take (l : List α) (d : α) (n i : Nat) (h : i < n) :
    (l.take n).getD i d = l.getD i d := by
  rw [List.getD_eq_getElem?_getD, List.getD_eq_getElem?_getD,
    List.getElem?_take_of_lt h]

theorem pyListMul_getD (l : List α) (d : α) :
    ∀ (n i : Nat), i < n * l.length →
      (pyListMul l n).getD i d = l.getD (i % l.length) d := by
  intro n
  induction n with
  | zero => intro i hi; omega
  | succ n ih =>
    intro i hi
    by_cases hil : i < l.length
    · rw [pyListMul, List.getD_append _ _ _ _ hil, Nat.mod_eq_of_lt hil]
    · push_neg at hil
      have hlpos : 0 < l.length := by
        rcases Nat.eq_zero_or_pos l.length with h0 | h0
        · rw [h0] at hi; omega
        · exact h0
      rw [pyListMul, List.getD_append_right _ _ _ _ hil]
      have hbound : i - l.length < n * l.length := by
        have hs : (n + 1) * l.length = n * l.length + l.length := Nat.succ_mul n l.length
        rw [hs] at hi
        omega
      rw [ih (i - l.length) hbound, Nat.mod_eq_sub_mod hil]

theorem le_ceilDiv_mul (a b : Nat) (hb : 0 < b) : a ≤ ((a + b - 1) / b) * b := by
  have hdm := Nat.div_add_mod (a + b - 1) b
  have hr := Nat.mod_lt (a + b - 1) hb
  rw [Nat.mul_comm]
  generalize (a + b - 1) / b = q at hdm ⊢
  generalize (a + b - 1) % b = r at hdm hr
  generalize b * q = p at hdm ⊢
  omega

theorem repeat_branch_long_enough (l : List α) (h1 : 1 ≤ l.length / 272) :
    370 * 272 ≤ ((370 + l.length / 272 - 1) / (l.length / 272)) * l.length := by
  have hceil : 370 ≤ ((370 + l.length / 272 - 1) / (l.length / 272)) * (l.length / 272) :=
    le_ceilDiv_mul 370 (l.length / 272) (by omega)
  have hlen : (l.length / 272) * 272 ≤ l.length := Nat.div_mul_le_self _ _
  calc 370 * 272
      ≤ (((370 + l.length / 272 - 1) / (l.length / 272)) * (l.length / 272)) * 272 :=
        Nat.mul_le_mul_right 272 hceil
    _ = ((370 + l.length / 272 - 1) / (l.length / 272)) * ((l.length / 272) * 272) :=
        Nat.mul_assoc _ _ _
    _ ≤ ((370 + l.length / 272 - 1) / (l.length / 272)) * l.length :=
        Nat.mul_le_mul_left _ hlen

end ExtendLemmas

/-- Claim C1: whenever the stripped stream holds at least one full frame
(`num_frames = ⌊len/272⌋ ≥ 1`), `extend_keypoints` with `max_seq_length = 370`
succeeds and returns exactly `370 * 272` values, in both the repetition branch
and the truncation branch. -/
theorem extend_keypoints_C1 {α : Type u} (l : List α) (h : 1 ≤ l.length / 272) :
    ∃ out, extend_keypoints 370 l = .ok out ∧ out.length = 370 * 272 := by
  unfold extend_keypoints
  by_cases hlt : l.length / 272 < 370
  · rw [if_pos hlt, if_neg (by omega)]
    refine ⟨_, rfl, ?_⟩
    rw [List.length_take, pyListMul_length]
    exact Nat.min_eq_left (repeat_branch_long_enough l h)
  · rw [if_neg hlt]
    refine ⟨_, rfl, ?_⟩
    rw [List.length_take]
    exact Nat.min_eq_left ((Nat.le_div_iff_mul_le (by norm_num)).mp (le_of_not_lt hlt))

/-- Witness for C1: a single all-zero frame of 272 values is extended to a list
of exactly `370 * 272` values. -/
theorem extend_keypoints_C1_witness :
    1 ≤ (List.replicate 272 (0 : Int)).length / 272 ∧
    ∃ out, extend_keypoints 370 (List.replicate 272 (0 : Int)) = .ok out ∧
      out.length = 370 * 272 :=
  ⟨by rw [List.length_replicate], extend_keypoints_C1 (List.replicate 272 (0 : Int))
    (by rw [List.length_replicate])⟩

/-- Claim C4: with `1 ≤ num_frames < 370`, the output of `extend_keypoints` is
the periodic repetition of the entire original input list with period
`len(input)` (not whole frames only), truncated to `370 * 272` values; in
particular the first `num_frames * 272` output values equal the input's first
full frames. -/
theorem extend_keypoints_C4 {α : Type u} (l : List α) (d : α)
    (h1 : 1 ≤ l.length / 272) (h2 : l.length / 272 < 370) :
    ∃ out, extend_keypoints 370 l = .ok out ∧
      out.length = 370 * 272 ∧
      (∀ i, i < 370 * 272 → out.getD i d = l.getD (i % l.length) d) ∧
      (∀ i, i < (l.length / 272) * 272 → out.getD i d = l.getD i d) := by
  unfold extend_keypoints
  rw [if_pos h2, if_neg (by omega)]
  refine ⟨_, rfl, ?_, ?_, ?_⟩
  · rw [List.length_take, pyListMul_length]
    exact Nat.min_eq_left (repeat_branch_long_enough l h1)
  · intro i hi
    rw [getD_take _ _ _ _ hi]
    exact pyListMul_getD l d _ i (lt_of_lt_of_le hi (repeat_branch_long_enough l h1))
  · intro i hi
    have hfull : (l.length / 272) * 272 ≤ l.length := Nat.div_mul_le_self _ _
    have hi' : i < 370 * 272 := by
      have : (l.length / 272) * 272 ≤ 370 * 272 := Nat.mul_le_mul_right 272 (le_of_lt h2)
      omega
    rw [getD_take _ _ _ _ hi']
    rw [pyListMul_getD l d _ i (lt_of_lt_of_le hi' (repeat_branch_long_enough l h1))]
    rw [Nat.mod_eq_of_lt (by omega)]

/-- Witness for C4 at a one-frame input `[0, 1, 2, ..., 271]`-shaped list
(here `List.range 272` mapped to `Int`): the hypotheses `1 ≤ num_frames` and
`num_frames < 370` hold and the theorem applies. -/
theorem extend_keypoints_C4_witness :
    1 ≤ ((List.range 272).map (Int.ofNat)).length / 272 ∧
    ((List.range 272).map (Int.ofNat)).length / 272 < 370 ∧
    ∃ out, extend_keypoints 370 ((List.range 272).map (Int.ofNat)) = .ok out ∧
      out.length = 370 * 272 ∧
      (∀ i, i < 370 * 272 →
        out.getD i 0 = ((List.range 272).map (Int.ofNat)).getD
          (i % ((List.range 272).map (Int.ofNat)).length) 0) ∧
      (∀ i, i < (((List.range 272).map (Int.ofNat)).length / 272) * 272 →
        out.getD i 0 = ((List.range 272).map (Int.ofNat)).getD i 0) :=
  ⟨by rw [List.length_map, List.length_range],
    by rw [List.length_map, List.length_range]; norm_num,
    extend_keypoints_C4 ((List.range 272).map (Int.ofNat)) 0
      (by rw [List.length_map, List.length_range])
      (by rw [List.length_map, List.length_range]; norm_num)⟩

/-- Claim C5: with `num_frames ≥ 370`, `extend_keypoints` returns exactly the
first `370 * 272` values of the input, each retained value unchanged. -/
theorem extend_keypoints_C5 {α : Type u} (l : List α) (d : α)
    (h : 370 ≤ l.length / 272) :
    extend_keypoints 370 l = .ok (l.take (370 * 272)) ∧
    (l.take (370 * 272)).length = 370 * 272 ∧
    ∀ i, i < 370 * 272 → (l.take (370 * 272)).getD i d = l.getD i d := by
  refine ⟨?_, ?_, fun i hi => getD_take l d _ i hi⟩
  · unfold extend_keypoints
    rw [if_neg (by omega)]
  · rw [List.length_take]
    exact Nat.min_eq_left ((Nat.le_div_iff_mul_le (by norm_num)).mp h)

/-- Witness for C5 at an input of 371 frames' worth of zeros: the hypothesis
`370 ≤ num_frames` holds and the theorem applies. -/
theorem extend_keypoints_C5_witness :
    370 ≤ (List.replicate (371 * 272) (0 : Int)).length / 272 ∧
    (extend_keypoints 370 (List.replicate (371 * 272) (0 : Int)) =
      .ok ((List.replicate (371 * 272) (0 : Int)).take (370 * 272)) ∧
    ((List.replicate (371 * 272) (0 : Int)).take (370 * 272)).length = 370 * 272 ∧
    ∀ i, i < 370 * 272 →
      ((List.replicate (371 * 272) (0 : Int)).take (370 * 272)).getD i 0 =
        (List.replicate (371 * 272) (0 : Int)).getD i 0) :=
  ⟨by rw [List.length_replicate]; norm_num,
    extend_keypoints_C5 (List.replicate (371 * 272) (0 : Int)) 0
      (by rw [List.length_replicate]; norm_num)⟩

/-- Claim C10: the inline comprehension in the `/predict` handler (keep indices
with `(i + 1) % 3 != 0`) computes exactly the same function as
`KeypointProcessor.skip_confidence_values` (keep indices with
`index % 3 != 2`). -/
theorem mainStripConfidence_C10 {α : Type u} (l : List α) :
    mainStripConfidence l = skip_confidence_values l := by
  unfold mainStripConfidence skip_confidence_values pyFilterIdx
  exact pyFilterIdxAux_congr _ _ stripPredicates_agree l 0

section StandardizerLemmas

theorem rangeMap_getD {β : Type u} (g : Nat → β) (n i : Nat) (d : β) (h : i < n) :
    ((List.range n).map g).getD i d = g i := by
  rw [List.getD_eq_getElem?_getD, List.getElem?_map]
  simp [List.getElem?_range, h]

theorem standardize_keypoints_getD (l : List ℝ) (idx : Nat) (d : EFloat)
    (h : idx < l.length) :
    (standardize_keypoints l).getD idx d =
      fdiv (l.getD idx 0 - colMean l (l.length / 272) (idx % 272))
           (colStd l (l.length / 272) (idx % 272)) := by
  unfold standardize_keypoints
  exact rangeMap_getD _ _ _ _ h

theorem applyAffineToCol_length (k c : ℝ) (j : Nat) (l : List ℝ) :
    (applyAffineToCol k c j l).length = l.length := by
  unfold applyAffineToCol
  rw [List.length_map, List.length_range]

theorem applyAffineToCol_getD (k c : ℝ) (j : Nat) (l : List ℝ) (idx : Nat)
    (h : idx < l.length) :
    (applyAffineToCol k c j l).getD idx 0 =
      if idx % 272 = j then k * l.getD idx 0 + c else l.getD idx 0 := by
  unfold applyAffineToCol
  exact rangeMap_getD _ _ _ _ h

theorem colMean_affine (k c : ℝ) (j N : Nat) (l : List ℝ) (hj : j < 272)
    (hlen : N * 272 ≤ l.length) (hN : 0 < N) :
    colMean (applyAffineToCol k c j l) N j = k * colMean l N j + c := by
  unfold colMean
  have hsum : ∀ i ∈ Finset.range N,
      (applyAffineToCol k c j l).getD (i * 272 + j) 0 =
        k * l.getD (i * 272 + j) 0 + c := by
    intro i hi
    rw [Finset.mem_range] at hi
    have hidx : i * 272 + j < l.length := by omega
    rw [applyAffineToCol_getD k c j l _ hidx,
      if_pos (by omega)]
  rw [Finset.sum_congr rfl hsum, Finset.sum_add_distrib, ← Finset.mul_sum,
    Finset.sum_const, Finset.card_range, nsmul_eq_mul]
  have hNne : (N : ℝ) ≠ 0 := Nat.cast_ne_zero.mpr (by omega)
  field_simp
  ring

theorem colVar_affine (k c : ℝ) (j N : Nat) (l : List ℝ) (hj : j < 272)
    (hlen : N * 272 ≤ l.length) (hN : 0 < N) :
    colVar (applyAffineToCol k c j l) N j = k ^ 2 * colVar l N j := by
  unfold colVar
  have hm := colMean_affine k c j N l hj hlen hN
  have hsum : ∀ i ∈ Finset.range N,
      ((applyAffineToCol k c j l).getD (i * 272 + j) 0 -
        colMean (applyAffineToCol k c j l) N j) ^ 2 =
        k ^ 2 * (l.getD (i * 272 + j) 0 - colMean l N j) ^ 2 := by
    intro i hi
    rw [Finset.mem_range] at hi
    have hidx : i * 272 + j < l.length := by omega
    rw [applyAffineToCol_getD k c j l _ hidx,
      if_pos (by omega), hm]
    ring
  rw [Finset.sum_congr rfl hsum, ← Finset.mul_sum, mul_div_assoc]

theorem colStd_affine (k c : ℝ) (j N : Nat) (l : List ℝ) (hj : j < 272)
    (hlen : N * 272 ≤ l.length) (hN : 0 < N) :
    colStd (applyAffineToCol k c j l) N j = |k| * colStd l N j := by
  unfold colStd
  rw [colVar_affine k c j N l hj hlen hN, Real.sqrt_mul (sq_nonneg k),
    Real.sqrt_sq_eq_abs]

theorem colVar_nonneg (l : List ℝ) (N j : Nat) : 0 ≤ colVar l N j := by
  unfold colVar
  apply div_nonneg
  · exact Finset.sum_nonneg fun i _ => sq_nonneg _
  · exact Nat.cast_nonneg N

theorem colStd_ne_zero_of_colVar_ne_zero (l : List ℝ) (N j : Nat)
    (h : colVar l N j ≠ 0) : colStd l N j ≠ 0 := by
  unfold colStd
  rw [Ne, Real.sqrt_eq_zero (colVar_nonneg l N j)]
  exact h

theorem colVar_ne_zero_of_getD_ne (l : List ℝ) (N j a b : Nat)
    (ha : a < N) (hb : b < N)
    (hne : l.getD (a * 272 + j) 0 ≠ l.getD (b * 272 + j) 0) :
    colVar l N j ≠ 0 := by
  intro h0
  unfold colVar at h0
  have hN : (N : ℝ) ≠ 0 := Nat.cast_ne_zero.mpr (by omega)
  rw [div_eq_zero_iff] at h0
  rcases h0 with h0 | h0
  · have hz := (Finset.sum_eq_zero_iff_of_nonneg fun i _ => sq_nonneg _).mp h0
    have ea : l.getD (a * 272 + j) 0 = colMean l N j :=
      sub_eq_zero.mp ((pow_eq_zero_iff (by norm_num : (2 : Nat) ≠ 0)).mp
        (hz a (Finset.mem_range.mpr ha)))
    have eb : l.getD (b * 272 + j) 0 = colMean l N j :=
      sub_eq_zero.mp ((pow_eq_zero_iff (by norm_num : (2 : Nat) ≠ 0)).mp
        (hz b (Finset.mem_range.mpr hb)))
    exact hne (ea.trans eb.symm)
  · exact hN h0

end StandardizerLemmas

/-- Claim C7: on an input of length `370 * 272` viewed as 370 rows by 272
columns, `standardize_keypoints` outputs `(value - column_mean) / column_std`
per cell, where `column_std` is the population standard deviation (divisor
`N = 370`, not `N - 1`); and for a column whose standard deviation is exactly
zero, every output value of that column is non-finite, not masked or
replaced. -/
theorem standardize_keypoints_C7 (l : List ℝ) (hl : l.length = 370 * 272) :
    (∀ i, i < 370 → ∀ j, j < 272 →
      (standardize_keypoints l).getD (i * 272 + j) (.fin 0) =
        fdiv (l.getD (i * 272 + j) 0 -
              (∑ r ∈ Finset.range 370, l.getD (r * 272 + j) 0) / 370)
          (Real.sqrt ((∑ r ∈ Finset.range 370,
              (l.getD (r * 272 + j) 0 -
               (∑ r' ∈ Finset.range 370, l.getD (r' * 272 + j) 0) / 370) ^ 2) / 370))) ∧
    (∀ j, j < 272 → colStd l 370 j = 0 →
      ∀ i, i < 370 →
        (standardize_keypoints l).getD (i * 272 + j) (.fin 0) = .nonfinite) := by
  have hN : l.length / 272 = 370 := by rw [hl]
  constructor
  · intro i hi j hj
    have hidx : i * 272 + j < l.length := by rw [hl]; omega
    have hmod : (i * 272 + j) % 272 = j := by omega
    rw [standardize_keypoints_getD l _ _ hidx, hN, hmod]
    unfold colStd colVar colMean
    push_cast
    rfl
  · intro j hj hstd i hi
    have hidx : i * 272 + j < l.length := by rw [hl]; omega
    have hmod : (i * 272 + j) % 272 = j := by omega
    rw [standardize_keypoints_getD l _ _ hidx, hN, hmod]
    unfold fdiv
    rw [if_pos hstd]

/-- Witness for C7 at the all-zero input of length `370 * 272`, cell (0, 0). -/
theorem standardize_keypoints_C7_witness :
    (List.replicate (370 * 272) (0 : ℝ)).length = 370 * 272 ∧
    (standardize_keypoints (List.replicate (370 * 272) (0 : ℝ))).getD
        (0 * 272 + 0) (.fin 0) =
      fdiv ((List.replicate (370 * 272) (0 : ℝ)).getD (0 * 272 + 0) 0 -
            (∑ r ∈ Finset.range 370,
              (List.replicate (370 * 272) (0 : ℝ)).getD (r * 272 + 0) 0) / 370)
        (Real.sqrt ((∑ r ∈ Finset.range 370,
            ((List.replicate (370 * 272) (0 : ℝ)).getD (r * 272 + 0) 0 -
             (∑ r' ∈ Finset.range 370,
               (List.replicate (370 * 272) (0 : ℝ)).getD (r' * 272 + 0) 0) / 370) ^ 2) /
          370)) :=
  ⟨by rw [List.length_replicate],
   (standardize_keypoints_C7 (List.replicate (370 * 272) (0 : ℝ))
      (by rw [List.length_replicate])).1 0 (by norm_num) 0 (by norm_num)⟩

/-- Claim C9: applying `x ↦ k * x + c` with `k ≠ 0` to all values of a column
of nonzero variance before `standardize_keypoints` yields the same
standardized output for that column when `k > 0`, and the negated output when
`k < 0`. -/
theorem standardize_keypoints_C9 (l : List ℝ) (k c : ℝ) (j : Nat)
    (hl : l.length = 370 * 272) (hj : j < 272) (hk : k ≠ 0)
    (hvar : colVar l 370 j ≠ 0) :
    ∀ i, i < 370 →
      (standardize_keypoints (applyAffineToCol k c j l)).getD (i * 272 + j) (.fin 0) =
        if 0 < k then (standardize_keypoints l).getD (i * 272 + j) (.fin 0)
        else negE ((standardize_keypoints l).getD (i * 272 + j) (.fin 0)) := by
  intro i hi
  have hlen' : (applyAffineToCol k c j l).length = l.length :=
    applyAffineToCol_length k c j l
  have hlenN : 370 * 272 ≤ l.length := le_of_eq hl.symm
  have hN : l.length / 272 = 370 := by rw [hl]
  have hidx : i * 272 + j < l.length := by rw [hl]; omega
  have hidx' : i * 272 + j < (applyAffineToCol k c j l).length := by
    rw [hlen']; exact hidx
  have hmod : (i * 272 + j) % 272 = j := by omega
  rw [standardize_keypoints_getD _ _ _ hidx', standardize_keypoints_getD _ _ _ hidx]
  rw [hlen', hN, hmod]
  rw [applyAffineToCol_getD k c j l _ hidx, if_pos hmod]
  rw [colMean_affine k c j 370 l hj hlenN (by norm_num),
    colStd_affine k c j 370 l hj hlenN (by norm_num)]
  have hstd : colStd l 370 j ≠ 0 := colStd_ne_zero_of_colVar_ne_zero l 370 j hvar
  have habs : |k| * colStd l 370 j ≠ 0 := mul_ne_zero (abs_ne_zero.mpr hk) hstd
  unfold fdiv
  rw [if_neg habs, if_neg hstd]
  by_cases hkpos : 0 < k
  · rw [if_pos hkpos]
    congr 1
    have hnum : k * l.getD (i * 272 + j) 0 + c - (k * colMean l 370 j + c) =
        k * (l.getD (i * 272 + j) 0 - colMean l 370 j) := by ring
    rw [hnum, abs_of_pos hkpos, mul_div_mul_left _ _ hk]
  · rw [if_neg hkpos]
    have hkneg : k < 0 := lt_of_le_of_ne (le_of_not_lt hkpos) hk
    simp only [negE]
    congr 1
    rw [abs_of_neg hkneg]
    field_simp
    ring

/-- Witness for C9: a concrete input whose rows are all-zero (row 0) and
all-one (rows 1..369), so column 0 has nonzero variance, transformed with
`k = 2 > 0`, `c = 3`, checked at cell (0, 0). -/
theorem standardize_keypoints_C9_witness :
    ((List.range (370 * 272)).map fun n => if n < 272 then (0 : ℝ) else 1).length =
      370 * 272 ∧
    (0 : Nat) < 272 ∧ (2 : ℝ) ≠ 0 ∧
    colVar ((List.range (370 * 272)).map fun n => if n < 272 then (0 : ℝ) else 1)
      370 0 ≠ 0 ∧
    (0 : Nat) < 370 ∧
    (standardize_keypoints (applyAffineToCol 2 3 0
        ((List.range (370 * 272)).map fun n => if n < 272 then (0 : ℝ) else 1))).getD
        (0 * 272 + 0) (.fin 0) =
      if (0 : ℝ) < 2 then
        (standardize_keypoints
          ((List.range (370 * 272)).map fun n => if n < 272 then (0 : ℝ) else 1)).getD
          (0 * 272 + 0) (.fin 0)
      else
        negE ((standardize_keypoints
          ((List.range (370 * 272)).map fun n => if n < 272 then (0 : ℝ) else 1)).getD
          (0 * 272 + 0) (.fin 0)) := by
  have hlen : ((List.range (370 * 272)).map
      fun n => if n < 272 then (0 : ℝ) else 1).length = 370 * 272 := by
    rw [List.length_map, List.length_range]
  have h0 : ((List.range (370 * 272)).map
      fun n => if n < 272 then (0 : ℝ) else 1).getD (0 * 272 + 0) 0 = 0 := by
    rw [show (0 * 272 + 0 : Nat) = 0 by norm_num,
      rangeMap_getD _ _ _ _ (by norm_num)]
    norm_num
  have h1 : ((List.range (370 * 272)).map
      fun n => if n < 272 then (0 : ℝ) else 1).getD (1 * 272 + 0) 0 = 1 := by
    rw [show (1 * 272 + 0 : Nat) = 272 by norm_num,
      rangeMap_getD _ _ _ _ (by norm_num)]
    norm_num
  have hvar : colVar ((List.range (370 * 272)).map
      fun n => if n < 272 then (0 : ℝ) else 1) 370 0 ≠ 0 := by
    apply colVar_ne_zero_of_getD_ne _ 370 0 0 1 (by norm_num) (by norm_num)
    rw [h0, h1]
    norm_num
  exact ⟨hlen, by norm_num, by norm_num, hvar, by norm_num,
    standardize_keypoints_C9 _ 2 3 0 hlen (by norm_num) (by norm_num) hvar 0
      (by norm_num)⟩

theorem getD_drop {α : Type u} (l : List α) (d : α) (a i : Nat) :
    (l.drop a).getD i d = l.getD (a + i) d := by
  rw [List.getD_eq_getElem?_getD, List.getD_eq_getElem?_getD, List.getElem?_drop]

/-- Claim C8: given a list of length `370 * 272`, `build_tensors` returns a
3-dimensional tensor of shape `(1, 370, 272)` with 32-bit float element
dtype, its cells in row-major order matching the flattened input; for any
input of a different length it fails with a shape (`ValueError`) error
instead of silently reshaping. -/
theorem build_tensors_C8 {α : Type u} (l : List α) (d : α) :
    (l.length = 370 * 272 →
      ∃ t, build_tensors 370 l = .ok t ∧
        t.dtype = .float32 ∧
        t.data.length = 1 ∧
        (t.data.getD 0 []).length = 370 ∧
        (∀ row ∈ t.data.getD 0 [], row.length = 272) ∧
        (∀ i, i < 370 → ∀ j, j < 272 →
          ((t.data.getD 0 []).getD i []).getD j d = l.getD (i * 272 + j) d)) ∧
    (l.length ≠ 370 * 272 →
      ∃ msg, build_tensors 370 l = .error (.valueError msg)) := by
  constructor
  · intro hl
    unfold build_tensors
    rw [if_pos (by omega)]
    refine ⟨_, rfl, rfl, rfl, ?_, ?_, ?_⟩
    · show (reshapeRows 370 272 l).length = 370
      unfold reshapeRows
      rw [List.length_map, List.length_range]
    · show ∀ row ∈ reshapeRows 370 272 l, row.length = 272
      intro row hrow
      unfold reshapeRows at hrow
      rcases List.mem_map.mp hrow with ⟨i, hi, hrow_eq⟩
      rw [List.mem_range] at hi
      rw [← hrow_eq, List.length_take, List.length_drop]
      have : 272 ≤ l.length - i * 272 := by omega
      omega
    · show ∀ i, i < 370 → ∀ j, j < 272 →
        ((reshapeRows 370 272 l).getD i []).getD j d = l.getD (i * 272 + j) d
      intro i hi j hj
      unfold reshapeRows
      rw [rangeMap_getD _ _ _ _ hi, getD_take _ _ _ _ hj, getD_drop]
  · intro hne
    unfold build_tensors
    rw [if_neg (by omega)]
    exact ⟨_, rfl⟩

/-- Witness for C8: a correctly-sized all-zero input yields the tensor; an
input of length 1 yields the shape error. -/
theorem build_tensors_C8_witness :
    ((List.replicate (370 * 272) (0 : Int)).length = 370 * 272 ∧
      ∃ t, build_tensors 370 (List.replicate (370 * 272) (0 : Int)) = .ok t ∧
        t.dtype = .float32 ∧
        t.data.length = 1 ∧
        (t.data.getD 0 []).length = 370 ∧
        (∀ row ∈ t.data.getD 0 [], row.length = 272) ∧
        (∀ i, i < 370 → ∀ j, j < 272 →
          ((t.data.getD 0 []).getD i []).getD j (0 : Int) =
            (List.replicate (370 * 272) (0 : Int)).getD (i * 272 + j) 0)) ∧
    (([(0 : Int)].length ≠ 370 * 272) ∧
      ∃ msg, build_tensors 370 [(0 : Int)] = .error (.valueError msg)) :=
  ⟨⟨by rw [List.length_replicate],
    (build_tensors_C8 (List.replicate (370 * 272) (0 : Int)) 0).1
      (by rw [List.length_replicate])⟩,
   ⟨by norm_num,
    (build_tensors_C8 [(0 : Int)] 0).2 (by norm_num)⟩⟩

/-- Claim C2 as the code actually behaves (code bug): a structurally valid
request whose stripped stream is shorter than one frame (here a single frame
with three keypoint values, stripped to two coordinates, so
`num_frames = 0`) makes `extend_keypoints` raise `ZeroDivisionError`, which
the handler's blanket `except Exception` surfaces as an HTTP 500 with the
exception's text — there is no explicit "sequence too short" validation
error anywhere. -/
theorem predict_C2_zeroDivision :
    predict (Json.arr [Json.obj
        [("keypoints", Json.arr [Json.num 0, Json.num 0, Json.num 0])]]) =
      { status := 500, detail := "integer division or modulo by zero" } ∧
    extend_keypoints 370 [(0 : ℚ), 0] = .error .zeroDivisionError :=
  ⟨rfl, rfl⟩

/-- Claim C3 as the code actually behaves (code bug): every malformed request
body is rejected before any pipeline stage runs, but the
`HTTPException(status_code=400, ...)` raised for it is caught by the
handler's own `except Exception` (main.py lines 59-60) and re-raised as
status 500, so the caller observes HTTP 500, not 400. -/
theorem predict_C3_malformed :
    predict (Json.num 7) =
      { status := 500, detail := "400: JSON data should be a list of frames" } ∧
    predict (Json.arr [Json.num 5]) =
      { status := 500, detail := "400: Invalid frame format in JSON data" } ∧
    predict (Json.arr [Json.obj [("other", Json.num 1)]]) =
      { status := 500, detail := "400: Invalid frame format in JSON data" } ∧
    predict (Json.arr []) =
      { status := 500, detail := "400: No keypoints found in JSON data" } :=
  ⟨rfl, rfl, rfl, rfl⟩
